import Mathlib

/-!
Verification of the result-tree visitor engine of `src/robot/result/visitors.py`:
the `Visitor` walk driver, the `Filter` visitor (suite/test/tag based pruning)
and the `TagSetter` visitor, together with the `_NameFilter` /
`_SuiteNameFilter` / `_TestNameFilter` matchers they use.

The pattern-matching primitive `robot.utils.matches_any`, the tag container
operations `Tags.add` / `Tags.remove`, and the tree-walk driver `Suite.visit`
live outside the given sources; they are modelled from the specification and
marked as such.  Everything else is translated directly from
`src/robot/result/visitors.py`.
-/

namespace Robot

/-- Modelled from the spec: glob-style wildcard matching used by
`robot.utils.matches_any` (not under the given sources).  A pattern is matched
against a whole name, with `*` matching any character sequence and `?` any
single character.  Structured so the recursion is on the pattern: the `*` case
tries every suffix of the remaining subject. -/
def suffixesOf : List Char → List (List Char)
  | [] => [[]]
  | c :: cs => (c :: cs) :: suffixesOf cs

/-- Modelled from the spec: core glob matcher over character lists. -/
def globMatch : List Char → List Char → Bool
  | [], cs => cs.isEmpty
  | '*' :: ps, cs => (suffixesOf cs).any (fun t => globMatch ps t)
  | p :: ps, cs =>
    match cs with
    | [] => false
    | c :: cs2 => (p = '?' || p = c) && globMatch ps cs2

/-- Modelled from the spec: name normalization performed by
`robot.utils.matches_any` with `ignore=['_']` — the ignored characters are
stripped and the comparison is case-insensitive.  Applied to both the name and
the pattern. -/
def normalizeName (s : String) : String :=
  ((s.data.filter (fun c => c ≠ '_')).map Char.toLower).asString

/-- Modelled from the spec: `robot.utils.matches_any(name, patterns, ignore=['_'])` —
true iff some pattern in the list glob-matches the normalized name. -/
def matchesAny (name : String) (patterns : List String) : Bool :=
  patterns.any (fun p => globMatch (normalizeName p).data (normalizeName name).data)

/-- A test: `name`, `longname` and its ordered tag list (unique labels). -/
structure Test where
  name : String
  longname : String
  tags : List String
deriving DecidableEq

/-- A suite: `name`, `longname`, ordered child suites and ordered tests
(`robot.result` model, as used by the visitors). -/
inductive Suite where
  | mk (name longname : String) (suites : List Suite) (tests : List Test)

def Suite.name : Suite → String
  | .mk n _ _ _ => n

def Suite.longname : Suite → String
  | .mk _ l _ _ => l

def Suite.suites : Suite → List Suite
  | .mk _ _ ss _ => ss

def Suite.tests : Suite → List Test
  | .mk _ _ _ ts => ts

def Suite.setTests : Suite → List Test → Suite
  | .mk n l ss _, ts => .mk n l ss ts

def Suite.setSuites : Suite → List Suite → Suite
  | .mk n l _ ts, ss => .mk n l ss ts

mutual
/-- Derived `test_count`: own tests plus the recursive sum over child suites. -/
def Suite.test_count : Suite → Nat
  | .mk _ _ ss ts => ts.length + suitesTestCount ss

def suitesTestCount : List Suite → Nat
  | [] => 0
  | s :: rest => s.test_count + suitesTestCount rest
end

/-- Structural induction principle for `Suite` giving the hypothesis on every
member of the child-suite list. -/
theorem Suite.strongInd {P : Suite → Prop}
    (h : ∀ n l ss ts, (∀ c ∈ ss, P c) → P (Suite.mk n l ss ts)) : ∀ s, P s
  | .mk n l ss ts => h n l ss ts (fun c hc => Suite.strongInd h c)
termination_by s => sizeOf s
decreasing_by
  have hlt := List.sizeOf_lt_of_mem hc
  simp only [Suite.mk.sizeOf_spec]
  omega

/-- Raw value assigned to a `_NameFilter`: Python `None`, a bare string, or a
list of pattern strings (`_NameFilter.__init__`, lines 150-153). -/
inductive RawNamePatterns where
  | noneVal : RawNamePatterns
  | strVal (s : String) : RawNamePatterns
  | listVal (l : List String) : RawNamePatterns

/-- `_NameFilter` state after `__init__`: a bare string has been wrapped into a
one-element list; `None` is kept (represented by `Option.none`). -/
structure NameFilter where
  patterns : Option (List String)
deriving DecidableEq

/-- `_NameFilter.__init__` (lines 150-153). -/
def NameFilter.ofRaw : RawNamePatterns → NameFilter
  | .noneVal => ⟨none⟩
  | .strVal s => ⟨some [s]⟩
  | .listVal l => ⟨some l⟩

/-- `_NameFilter.__nonzero__` (lines 158-159): truthiness of the stored
pattern value (`None` and `[]` are both falsy). -/
def NameFilter.nonzero : NameFilter → Bool
  | ⟨none⟩ => false
  | ⟨some l⟩ => !l.isEmpty

/-- `_NameFilter._match` (lines 155-156).  With `None` patterns Python would
raise; that state is never reached because the filter is only consulted when
truthy, and we return `false` there. -/
def NameFilter.matchName (nf : NameFilter) (name : String) : Bool :=
  match nf.patterns with
  | none => false
  | some pats => matchesAny name pats

/-- Python `'.' in name` for the longname loop. -/
def containsDot (s : String) : Bool := s.data.contains '.'

/-- Python `name.split('.', 1)[1]`: everything after the first dot. -/
def dropFirstSegment (s : String) : String :=
  ⟨(s.data.dropWhile (fun c => c ≠ '.')).drop 1⟩

/-- Fueled form of the `while` loop of `_SuiteNameFilter._match_longname_end`
(lines 167-171); the fuel is an upper bound on the number of iterations, kept
explicit so the definition is structurally recursive and computable by the
kernel.  `NameFilter.matchLongnameEnd` instantiates it with enough fuel, and
`matchLongnameEnd_step` recovers the loop's defining equation. -/
def mleAux (nf : NameFilter) : Nat → String → Bool
  | 0, _ => false
  | fuel+1, s =>
    if containsDot s then (nf.matchName s || mleAux nf fuel (dropFirstSegment s)) else false

/-- `_SuiteNameFilter._match_longname_end` (lines 167-171). -/
def NameFilter.matchLongnameEnd (nf : NameFilter) (s : String) : Bool :=
  mleAux nf s.data.length s

/-- `_SuiteNameFilter.match` (lines 164-165). -/
def suiteNameMatch (nf : NameFilter) (s : Suite) : Bool :=
  nf.matchName s.name || nf.matchLongnameEnd s.longname

/-- `_TestNameFilter.match` (lines 176-177). -/
def testNameMatch (nf : NameFilter) (t : Test) : Bool :=
  nf.matchName t.name || nf.matchName t.longname

theorem length_dropWhile_le {α : Type} (p : α → Bool) :
    ∀ l : List α, (l.dropWhile p).length ≤ l.length := by
  intro l
  induction l with
  | nil => simp
  | cons x l ih =>
    simp only [List.dropWhile_cons]
    split
    · exact Nat.le_trans ih (Nat.le_succ _)
    · simp

/-- Dropping the first dotted segment shortens the string whenever it contains
a dot — the termination argument of the source's `while` loop. -/
theorem dropFirstSegment_length_lt (s : String) (h : containsDot s = true) :
    (dropFirstSegment s).data.length < s.data.length := by
  have hmem : '.' ∈ s.data := List.mem_of_elem_eq_true h
  have hne : s.data.dropWhile (fun c => c ≠ '.') ≠ [] := by
    intro hnil
    have := (List.dropWhile_eq_nil_iff).1 hnil '.' hmem
    simp at this
  have hle : (s.data.dropWhile (fun c => c ≠ '.')).length ≤ s.data.length :=
    length_dropWhile_le _ _
  have hpos : 0 < (s.data.dropWhile (fun c => c ≠ '.')).length :=
    List.length_pos.2 hne
  simp only [dropFirstSegment, List.length_drop]
  omega

/-- The fueled loop is independent of the fuel once the fuel dominates the
string length. -/
theorem mleAux_congr (nf : NameFilter) :
    ∀ f1 f2 s, s.data.length ≤ f1 → s.data.length ≤ f2 →
      mleAux nf f1 s = mleAux nf f2 s := by
  intro f1
  induction f1 with
  | zero =>
    intro f2 s h1 _
    have hdata : s.data = [] := List.length_eq_zero.1 (Nat.le_zero.1 h1)
    have hdot : containsDot s = false := by simp [containsDot, hdata]
    cases f2 with
    | zero => rfl
    | succ k => simp [mleAux, hdot]
  | succ a ih =>
    intro f2 s h1 h2
    cases f2 with
    | zero =>
      have hdata : s.data = [] := List.length_eq_zero.1 (Nat.le_zero.1 h2)
      have hdot : containsDot s = false := by simp [containsDot, hdata]
      simp [mleAux, hdot]
    | succ b =>
      by_cases hdot : containsDot s = true
      · have hlt := dropFirstSegment_length_lt s hdot
        have ha : (dropFirstSegment s).data.length ≤ a := by omega
        have hb : (dropFirstSegment s).data.length ≤ b := by omega
        simp [mleAux, hdot, ih b (dropFirstSegment s) ha hb]
      · simp at hdot
        simp [mleAux, hdot]

/-- Defining equation of the source's longname loop: check the current string
while it still contains a dot, then strip the leading segment and repeat. -/
theorem matchLongnameEnd_step (nf : NameFilter) (s : String) :
    nf.matchLongnameEnd s =
      (if containsDot s then
        (nf.matchName s || nf.matchLongnameEnd (dropFirstSegment s))
      else false) := by
  unfold NameFilter.matchLongnameEnd
  by_cases hdot : containsDot s = true
  · have hpos : 0 < s.data.length := by
      rcases s.data.length.eq_zero_or_pos with h0 | h
      · have hdata : s.data = [] := List.length_eq_zero.1 h0
        simp [containsDot, hdata] at hdot
      · exact h
    obtain ⟨k, hk⟩ : ∃ k, s.data.length = k + 1 := ⟨s.data.length - 1, by omega⟩
    have hlt := dropFirstSegment_length_lt s hdot
    rw [hk]
    simp only [mleAux, hdot, if_true]
    rw [mleAux_congr nf k (dropFirstSegment s).data.length (dropFirstSegment s) (by omega)
      (Nat.le_refl _)]
  · simp at hdot
    rcases hfuel : s.data.length with _ | k
    · simp [mleAux, hdot]
    · simp [mleAux, hdot]

/-- External tag-pattern matcher (the `TagPatterns` collaborator from the
`tags` module, outside the given sources).  The core only relies on its
narrow contract: `match(tagset) -> bool` plus truthiness, so it is embedded as
an opaque pair of a predicate and a configured flag. -/
structure TagPatterns where
  matchTags : List String → Bool
  nonzero : Bool

/-- The matcher produced by `TagPatterns(None)` — unconfigured and falsy. -/
def TagPatterns.unset : TagPatterns := ⟨fun _ => false, false⟩

/-- `Filter` state after construction: the four criteria, each already
normalized into its matcher object by the property setters (lines 72-95). -/
structure Filter where
  include_suites : NameFilter
  include_tests : NameFilter
  include_tags : TagPatterns
  exclude_tags : TagPatterns

/-- `Filter.__nonzero__` (lines 143-145). -/
def Filter.nonzero (f : Filter) : Bool :=
  f.include_suites.nonzero || f.include_tests.nonzero ||
    f.include_tags.nonzero || f.exclude_tags.nonzero

/-- The three test-narrowing passes of `Filter.start_suite` (lines 102-107):
each configured axis filters the current test list in turn —
`_filter` (lines 120-123) with `_included_by_test_name` (125-126),
`_included_by_tags` (128-129), `_not_excluded_by_tags` (131-132). -/
def Filter.narrowTests (f : Filter) (ts : List Test) : List Test :=
  let ts1 := if f.include_tests.nonzero
    then ts.filter (fun t => testNameMatch f.include_tests t) else ts
  let ts2 := if f.include_tags.nonzero
    then ts1.filter (fun t => f.include_tags.matchTags t.tags) else ts1
  let ts3 := if f.exclude_tags.nonzero
    then ts2.filter (fun t => !(f.exclude_tags.matchTags t.tags)) else ts2
  ts3

/-- `Filter.end_suite` (lines 134-135): keep only child suites with a truthy
(nonzero) recursive `test_count`. -/
def Filter.end_suite (s : Suite) : Suite :=
  match s with
  | .mk n l ss ts => .mk n l (ss.filter (fun c => c.test_count != 0)) ts

/-- The derived filter built inside `_filter_by_suite_name` (lines 114-117):
`include_suites=[]` with the other three criteria carried over.  The
constructor's setters re-use the already-normalized matcher objects unchanged
(lines 79-95; proven as the C8 theorem). -/
def Filter.derived (f : Filter) : Filter :=
  { include_suites := NameFilter.ofRaw (.listVal [])
    include_tests := f.include_tests
    include_tags := f.include_tags
    exclude_tags := f.exclude_tags }

mutual
/-- The complete visit of a suite by a Filter whose `include_suites` is falsy:
the driver walk of the spec (entry, tests, child suites, then `end_suite`,
which fires even when `start_suite` signalled stop) specialized to the
lines 97-99 and 102-108 behavior of `Filter.start_suite`.  The driver itself
(`Suite.visit`) is modelled from the spec; `Filter.start_test` and
`Filter.start_keyword` (lines 137-141) return `False`, so the per-test part of
the walk never mutates anything. -/
def visitNoSN (f : Filter) : Suite → Suite
  | .mk n l ss ts =>
    if f.nonzero = false then Filter.end_suite (.mk n l ss ts)
    else
      (if ss.isEmpty then Filter.end_suite (.mk n l ss (f.narrowTests ts))
       else Filter.end_suite (.mk n l (visitNoSNList f ss) (f.narrowTests ts)))

def visitNoSNList (f : Filter) : List Suite → List Suite
  | [] => []
  | c :: rest => visitNoSN f c :: visitNoSNList f rest
end

mutual
/-- The complete visit of a suite by an arbitrary `Filter`: the spec's driver
walk combined with `Filter.start_suite` (lines 97-108),
`_filter_by_suite_name` (lines 110-118) and `Filter.end_suite` (lines
134-135).  In the matched-suite branch the source calls
`suite.visit(Filter(include_suites=[], ...))`; that inner filter has a falsy
`include_suites`, so its visit is `visitNoSN` — `filterVisit_noSN` below
proves the two agree on every such filter. -/
def filterVisit (f : Filter) : Suite → Suite
  | .mk n l ss ts =>
    if f.nonzero = false then Filter.end_suite (.mk n l ss ts)
    else if f.include_suites.nonzero then
      (if suiteNameMatch f.include_suites (.mk n l ss ts) then
        Filter.end_suite (visitNoSN f.derived (.mk n l ss ts))
      else
        Filter.end_suite (.mk n l (filterVisitList f ss) []))
    else visitNoSN f (.mk n l ss ts)

def filterVisitList (f : Filter) : List Suite → List Suite
  | [] => []
  | c :: rest => filterVisit f c :: filterVisitList f rest
end

/-- `Filter.start_suite` (lines 97-108) with `_filter_by_suite_name` (lines
110-118) inlined: returns the mutated suite together with the continuation
signal handed back to the driver. -/
def Filter.start_suite (f : Filter) (s : Suite) : Suite × Bool :=
  if f.nonzero = false then (s, false)
  else if f.include_suites.nonzero then
    (if suiteNameMatch f.include_suites s then (filterVisit f.derived s, false)
     else (s.setTests [], true))
  else
    (s.setTests (f.narrowTests s.tests), !s.suites.isEmpty)

/-- `TagSetter` configuration (lines 49-53): tag values to add and tag
patterns to remove, each possibly `None`. -/
structure TagSetter where
  add : Option (List String)
  remove : Option (List String)

def optListTruthy : Option (List String) → Bool
  | none => false
  | some l => !l.isEmpty

/-- `TagSetter.__nonzero__` (lines 66-67): `bool(self.add or self.remove)`. -/
def TagSetter.nonzero (c : TagSetter) : Bool :=
  optListTruthy c.add || optListTruthy c.remove

/-- Modelled from the spec: `Tags.add` of the tag container (not under the
given sources) — insert each value not already present, preserving uniqueness
and insertion order; `None` adds nothing. -/
def tagsAdd (tags : List String) (vals : Option (List String)) : List String :=
  match vals with
  | none => tags
  | some vs => vs.foldl (fun acc v => if acc.contains v then acc else acc ++ [v]) tags

/-- Modelled from the spec: `Tags.remove` of the tag container (not under the
given sources) — delete every tag matching any remove pattern; `None` removes
nothing. -/
def tagsRemove (tags : List String) (pats : Option (List String)) : List String :=
  match pats with
  | none => tags
  | some ps => tags.filter (fun t => !(matchesAny t ps))

/-- `TagSetter.start_test` (lines 58-61): apply `add` then `remove` to the
test's tag set and signal stop. -/
def TagSetter.start_test (c : TagSetter) (t : Test) : Test × Bool :=
  ({ t with tags := tagsRemove (tagsAdd t.tags c.add) c.remove }, false)

/-- Value assigned to one of the two name-filter properties of a `Filter`:
either a raw pattern value or an already-normalized matcher of the expected
class (the `isinstance` test of lines 79-87). -/
inductive NameArg where
  | raw (r : RawNamePatterns)
  | matcher (m : NameFilter)

/-- The `include_suites` property setter (lines 79-82). -/
def include_suites_setter : NameArg → NameFilter
  | .raw r => NameFilter.ofRaw r
  | .matcher m => m

/-- The `include_tests` property setter (lines 84-87). -/
def include_tests_setter : NameArg → NameFilter
  | .raw r => NameFilter.ofRaw r
  | .matcher m => m

/-- Value assigned to one of the two tag-pattern properties of a `Filter`:
either a raw pattern value (parsed by the external `TagPatterns` constructor,
passed in as `parse`) or an already-normalized `TagPatterns` matcher. -/
inductive TagsArg where
  | raw (r : Option (List String))
  | matcher (m : TagPatterns)

/-- The `include_tags` property setter (lines 89-91). -/
def include_tags_setter (parse : Option (List String) → TagPatterns) : TagsArg → TagPatterns
  | .raw r => parse r
  | .matcher m => m

/-- The `exclude_tags` property setter (lines 93-95). -/
def exclude_tags_setter (parse : Option (List String) → TagPatterns) : TagsArg → TagPatterns
  | .raw r => parse r
  | .matcher m => m

/-- True when at least one of the three test-level criteria is configured. -/
def Filter.testLevelConfigured (f : Filter) : Bool :=
  f.include_tests.nonzero || f.include_tags.nonzero || f.exclude_tags.nonzero

/-- The conjunction of the Filter's configured test-level predicates, an
unconfigured axis imposing nothing (spec section 4.3, step 2). -/
def Filter.testPred (f : Filter) (t : Test) : Bool :=
  (!f.include_tests.nonzero || testNameMatch f.include_tests t) &&
    (!f.include_tags.nonzero || f.include_tags.matchTags t.tags) &&
    (!f.exclude_tags.nonzero || !(f.exclude_tags.matchTags t.tags))

mutual
/-- Spec invariant after a visit: every suite strictly below this one has a
nonzero recursive `test_count`. -/
def goodBelow : Suite → Bool
  | .mk _ _ ss _ => goodBelowList ss

def goodBelowList : List Suite → Bool
  | [] => true
  | c :: rest => ((c.test_count != 0) && goodBelow c) && goodBelowList rest
end

/-- Fueled iteration for the spec-side suffix chain of a longname (see
`mleAux` for the fuel convention). -/
def stripChainAux : Nat → String → List String
  | 0, s => [s]
  | fuel+1, s =>
    if containsDot s then s :: stripChainAux fuel (dropFirstSegment s) else [s]

/-- Spec-side: all strings obtained from `s` by repeatedly stripping the
leading dotted segment from the front (including `s` itself and the final
dotless segment). -/
def stripChain (s : String) : List String := stripChainAux s.data.length s

/-- Fueled iteration for the last dotted segment (see `mleAux`). -/
def lastSegAux : Nat → String → String
  | 0, s => s
  | fuel+1, s =>
    if containsDot s then lastSegAux fuel (dropFirstSegment s) else s

/-- The last dotted segment of a string (the string itself if dotless). -/
def lastSeg (s : String) : String := lastSegAux s.data.length s

/-- Spec-side suite-name matching, following the spec's words: the suite
matches iff its bare name matches some pattern, or some suffix of its longname
obtained by repeatedly stripping the leading dotted segment matches some
pattern. -/
def specSuiteMatch (nf : NameFilter) (name longname : String) : Prop :=
  nf.matchName name = true ∨ ∃ u ∈ stripChain longname, nf.matchName u = true

theorem visitNoSNList_eq_map (f : Filter) :
    ∀ l : List Suite, visitNoSNList f l = l.map (visitNoSN f) := by
  intro l
  induction l with
  | nil => simp [visitNoSNList]
  | cons c rest ih => simp [visitNoSNList, ih]

theorem filterVisitList_eq_map (f : Filter) :
    ∀ l : List Suite, filterVisitList f l = l.map (filterVisit f) := by
  intro l
  induction l with
  | nil => simp [filterVisitList]
  | cons c rest ih => simp [filterVisitList, ih]

/-- The derived filter's suite-name axis is unconfigured and its other three
criteria are those of the original filter. -/
theorem derived_fields (f : Filter) :
    f.derived.include_suites = NameFilter.ofRaw (.listVal []) ∧
      f.derived.include_tests = f.include_tests ∧
      f.derived.include_tags = f.include_tags ∧
      f.derived.exclude_tags = f.exclude_tags ∧
      f.derived.include_suites.nonzero = false :=
  ⟨rfl, rfl, rfl, rfl, rfl⟩

theorem derived_nonzero (f : Filter) :
    f.derived.nonzero = f.testLevelConfigured := by
  simp [Filter.derived, Filter.nonzero, Filter.testLevelConfigured,
    NameFilter.ofRaw, NameFilter.nonzero]

theorem testLevel_nonzero {f : Filter} (h : f.testLevelConfigured = true) :
    f.nonzero = true := by
  simp only [Filter.testLevelConfigured, Bool.or_eq_true] at h
  simp only [Filter.nonzero, Bool.or_eq_true]
  tauto

/-- For a filter whose suite-name axis is unconfigured, the generic visit is
the suite-name-free visit: the `include_suites` branch of `start_suite` is
never taken. -/
theorem filterVisit_noSN {f : Filter} (h : f.include_suites.nonzero = false) :
    ∀ s, filterVisit f s = visitNoSN f s := by
  intro s
  match s with
  | .mk n l ss ts =>
    by_cases hz : f.nonzero = false
    · simp [filterVisit, visitNoSN, hz]
    · simp only [Bool.not_eq_false] at hz
      simp [filterVisit, visitNoSN, hz, h]

theorem filterVisitList_noSN {f : Filter} (h : f.include_suites.nonzero = false) :
    ∀ l, filterVisitList f l = visitNoSNList f l := by
  intro l
  induction l with
  | nil => simp [filterVisitList, visitNoSNList]
  | cons c rest ih => simp [filterVisitList, visitNoSNList, ih, filterVisit_noSN h]

/-- Driver coherence: the full visit equals the spec's walk —
`start_suite`, then (when the signal says continue) the recursive walk of the
post-mutation child suites, then always `end_suite`. -/
theorem filterVisit_driver (f : Filter) (s : Suite) :
    filterVisit f s =
      Filter.end_suite
        (if (f.start_suite s).2
          then (f.start_suite s).1.setSuites (filterVisitList f (f.start_suite s).1.suites)
          else (f.start_suite s).1) := by
  match s with
  | .mk n l ss ts =>
    by_cases hz : f.nonzero = false
    · simp [filterVisit, Filter.start_suite, hz]
    · simp only [Bool.not_eq_false] at hz
      by_cases hsn : f.include_suites.nonzero = true
      · by_cases hm : suiteNameMatch f.include_suites (Suite.mk n l ss ts) = true
        · have hder : f.derived.include_suites.nonzero = false := rfl
          rw [show f.start_suite (Suite.mk n l ss ts) =
              (visitNoSN f.derived (Suite.mk n l ss ts), false) from by
            simp [Filter.start_suite, hz, hsn, hm, filterVisit_noSN hder]]
          simp [filterVisit, hz, hsn, hm]
        · simp only [Bool.not_eq_true] at hm
          simp [filterVisit, Filter.start_suite, hz, hsn, hm, Suite.setTests,
            Suite.setSuites, Suite.suites]
      · simp only [Bool.not_eq_true] at hsn
        by_cases hss : ss.isEmpty = true
        · have : ss = [] := by simpa using hss
          subst this
          simp [filterVisit, Filter.start_suite, hz, hsn, visitNoSN, Suite.setTests,
            Suite.suites, Suite.tests]
        · simp only [Bool.not_eq_true] at hss
          simp [filterVisit, Filter.start_suite, hz, hsn, visitNoSN, hss, Suite.setTests,
            Suite.setSuites, Suite.suites, Suite.tests, filterVisitList_noSN hsn]

theorem goodBelowList_eq_all :
    ∀ l : List Suite, goodBelowList l = l.all (fun c => (c.test_count != 0) && goodBelow c) := by
  intro l
  induction l with
  | nil => simp [goodBelowList]
  | cons c rest ih => simp [goodBelowList, ih, Bool.and_assoc]

/-- Pruning establishes the invariant one level down: if every child in the
list satisfies `goodBelow`, the pruned suite satisfies it outright. -/
theorem goodBelow_end_suite_of (n l : String) (ss : List Suite) (ts : List Test)
    (h : ∀ c ∈ ss, goodBelow c = true) :
    goodBelow (Filter.end_suite (Suite.mk n l ss ts)) = true := by
  simp only [Filter.end_suite, goodBelow, goodBelowList_eq_all, List.all_eq_true,
    List.mem_filter, Bool.and_eq_true]
  intro c hc
  exact ⟨hc.2, h c hc.1⟩

/-- Pruning preserves the invariant. -/
theorem goodBelow_end_suite_mono {s : Suite} (h : goodBelow s = true) :
    goodBelow (Filter.end_suite s) = true := by
  match s with
  | .mk n l ss ts =>
    apply goodBelow_end_suite_of
    intro c hc
    simp only [goodBelow, goodBelowList_eq_all, List.all_eq_true, Bool.and_eq_true] at h
    exact (h c hc).2

/-- Core of the pruning invariant: a visit by a truthy filter whose suite-name
axis is unconfigured leaves no zero-test suite anywhere below the root. -/
theorem goodBelow_visitNoSN :
    ∀ s : Suite, ∀ f : Filter, f.nonzero = true → goodBelow (visitNoSN f s) = true := by
  intro s
  induction s using Suite.strongInd with
  | _ n l ss ts ih =>
    intro f hz
    have hz' : (f.nonzero = false) = False := by simp [hz]
    by_cases hss : ss.isEmpty = true
    · have : ss = [] := by simpa using hss
      subst this
      simp [visitNoSN, hz', Filter.end_suite, goodBelow, goodBelowList]
    · simp only [Bool.not_eq_true] at hss
      simp only [visitNoSN, hz', if_false, hss, Bool.false_eq_true]
      apply goodBelow_end_suite_of
      intro c hc
      rw [visitNoSNList_eq_map] at hc
      obtain ⟨c0, hc0, rfl⟩ := List.mem_map.1 hc
      exact ih c0 hc0 f hz

/-- Pruning invariant for the full visit of any filter with a configured
test-level criterion: no zero-test suite survives below the root. -/
theorem goodBelow_filterVisit :
    ∀ s : Suite, ∀ f : Filter, f.testLevelConfigured = true →
      goodBelow (filterVisit f s) = true := by
  intro s
  induction s using Suite.strongInd with
  | _ n l ss ts ih =>
    intro f htl
    have hz := testLevel_nonzero htl
    by_cases hsn : f.include_suites.nonzero = true
    · by_cases hm : suiteNameMatch f.include_suites (Suite.mk n l ss ts) = true
      · have hdz : f.derived.nonzero = true := by rw [derived_nonzero]; exact htl
        simp only [filterVisit, hz, Bool.true_eq_false, if_false, hsn, if_true, hm]
        exact goodBelow_end_suite_mono (goodBelow_visitNoSN _ _ hdz)
      · simp only [Bool.not_eq_true] at hm
        simp only [filterVisit, hz, Bool.true_eq_false, if_false, hsn, if_true, hm,
          Bool.false_eq_true]
        apply goodBelow_end_suite_of
        intro c hc
        rw [filterVisitList_eq_map] at hc
        obtain ⟨c0, hc0, rfl⟩ := List.mem_map.1 hc
        exact ih c0 hc0 f htl
    · simp only [Bool.not_eq_true] at hsn
      rw [filterVisit_noSN hsn]
      exact goodBelow_visitNoSN _ _ hz

/-- The three sequential narrowing passes compute exactly the filter by the
conjunction of the configured test-level predicates, in one pass over the
original list (so survivors keep their original relative order). -/
theorem narrowTests_eq_filter (f : Filter) (ts : List Test) :
    f.narrowTests ts = ts.filter f.testPred := by
  unfold Filter.narrowTests Filter.testPred
  by_cases h1 : f.include_tests.nonzero = true <;>
    by_cases h2 : f.include_tags.nonzero = true <;>
      by_cases h3 : f.exclude_tags.nonzero = true <;>
        simp [h1, h2, h3, List.filter_filter, Bool.and_assoc, Bool.and_comm,
          Bool.and_left_comm]

theorem stripChainAux_congr :
    ∀ f1 f2 s, s.data.length ≤ f1 → s.data.length ≤ f2 →
      stripChainAux f1 s = stripChainAux f2 s := by
  intro f1
  induction f1 with
  | zero =>
    intro f2 s h1 _
    have hdata : s.data = [] := List.length_eq_zero.1 (Nat.le_zero.1 h1)
    have hdot : containsDot s = false := by simp [containsDot, hdata]
    cases f2 with
    | zero => rfl
    | succ k => simp [stripChainAux, hdot]
  | succ a ih =>
    intro f2 s h1 h2
    cases f2 with
    | zero =>
      have hdata : s.data = [] := List.length_eq_zero.1 (Nat.le_zero.1 h2)
      have hdot : containsDot s = false := by simp [containsDot, hdata]
      simp [stripChainAux, hdot]
    | succ b =>
      by_cases hdot : containsDot s = true
      · have hlt := dropFirstSegment_length_lt s hdot
        have ha : (dropFirstSegment s).data.length ≤ a := by omega
        have hb : (dropFirstSegment s).data.length ≤ b := by omega
        simp [stripChainAux, hdot, ih b (dropFirstSegment s) ha hb]
      · simp at hdot
        simp [stripChainAux, hdot]

/-- Defining equation of the spec-side suffix chain. -/
theorem stripChain_step (s : String) :
    stripChain s =
      (if containsDot s then s :: stripChain (dropFirstSegment s) else [s]) := by
  unfold stripChain
  by_cases hdot : containsDot s = true
  · have hpos : 0 < s.data.length := by
      rcases s.data.length.eq_zero_or_pos with h0 | h
      · have hdata : s.data = [] := List.length_eq_zero.1 h0
        simp [containsDot, hdata] at hdot
      · exact h
    obtain ⟨k, hk⟩ : ∃ k, s.data.length = k + 1 := ⟨s.data.length - 1, by omega⟩
    have hlt := dropFirstSegment_length_lt s hdot
    rw [hk]
    simp only [stripChainAux, hdot, if_true]
    rw [stripChainAux_congr k (dropFirstSegment s).data.length (dropFirstSegment s)
      (by omega) (Nat.le_refl _)]
  · simp at hdot
    rcases hfuel : s.data.length with _ | k
    · simp [stripChainAux, hdot]
    · simp [stripChainAux, hdot]

theorem lastSegAux_congr :
    ∀ f1 f2 s, s.data.length ≤ f1 → s.data.length ≤ f2 →
      lastSegAux f1 s = lastSegAux f2 s := by
  intro f1
  induction f1 with
  | zero =>
    intro f2 s h1 _
    have hdata : s.data = [] := List.length_eq_zero.1 (Nat.le_zero.1 h1)
    have hdot : containsDot s = false := by simp [containsDot, hdata]
    cases f2 with
    | zero => rfl
    | succ k => simp [lastSegAux, hdot]
  | succ a ih =>
    intro f2 s h1 h2
    cases f2 with
    | zero =>
      have hdata : s.data = [] := List.length_eq_zero.1 (Nat.le_zero.1 h2)
      have hdot : containsDot s = false := by simp [containsDot, hdata]
      simp [lastSegAux, hdot]
    | succ b =>
      by_cases hdot : containsDot s = true
      · have hlt := dropFirstSegment_length_lt s hdot
        have ha : (dropFirstSegment s).data.length ≤ a := by omega
        have hb : (dropFirstSegment s).data.length ≤ b := by omega
        simp [lastSegAux, hdot, ih b (dropFirstSegment s) ha hb]
      · simp at hdot
        simp [lastSegAux, hdot]

/-- Defining equation of the last dotted segment. -/
theorem lastSeg_step (s : String) :
    lastSeg s = (if containsDot s then lastSeg (dropFirstSegment s) else s) := by
  unfold lastSeg
  by_cases hdot : containsDot s = true
  · have hpos : 0 < s.data.length := by
      rcases s.data.length.eq_zero_or_pos with h0 | h
      · have hdata : s.data = [] := List.length_eq_zero.1 h0
        simp [containsDot, hdata] at hdot
      · exact h
    obtain ⟨k, hk⟩ : ∃ k, s.data.length = k + 1 := ⟨s.data.length - 1, by omega⟩
    have hlt := dropFirstSegment_length_lt s hdot
    rw [hk]
    simp only [lastSegAux, hdot, if_true]
    rw [lastSegAux_congr k (dropFirstSegment s).data.length (dropFirstSegment s)
      (by omega) (Nat.le_refl _)]
  · simp at hdot
    rcases hfuel : s.data.length with _ | k
    · simp [lastSegAux, hdot]
    · simp [lastSegAux, hdot]

/-- The longname loop succeeds exactly on a dotted member of the suffix chain
that matches the patterns. -/
theorem matchLongnameEnd_iff (nf : NameFilter) (s : String) :
    nf.matchLongnameEnd s = true ↔
      ∃ u ∈ stripChain s, containsDot u = true ∧ nf.matchName u = true := by
  rw [matchLongnameEnd_step, stripChain_step]
  by_cases hdot : containsDot s = true
  · simp only [hdot, if_true]
    have ihrec := matchLongnameEnd_iff nf (dropFirstSegment s)
    constructor
    · intro h
      rw [Bool.or_eq_true] at h
      rcases h with hname | hrest
      · exact ⟨s, List.mem_cons_self _ _, hdot, hname⟩
      · obtain ⟨u, hu, hud, hum⟩ := ihrec.1 hrest
        exact ⟨u, List.mem_cons_of_mem _ hu, hud, hum⟩
    · rintro ⟨u, hu, hud, hum⟩
      rw [Bool.or_eq_true]
      rcases List.mem_cons.1 hu with rfl | hu2
      · exact Or.inl hum
      · exact Or.inr (ihrec.2 ⟨u, hu2, hud, hum⟩)
  · simp only [Bool.not_eq_true] at hdot
    simp [hdot]
termination_by s.data.length
decreasing_by
  exact dropFirstSegment_length_lt s hdot

/-- The last segment never contains a dot. -/
theorem lastSeg_noDot (s : String) : containsDot (lastSeg s) = false := by
  rw [lastSeg_step]
  by_cases hdot : containsDot s = true
  · simp only [hdot, if_true]
    exact lastSeg_noDot (dropFirstSegment s)
  · simp only [Bool.not_eq_true] at hdot
    simp [hdot]
termination_by s.data.length
decreasing_by
  exact dropFirstSegment_length_lt s hdot

/-- Every member of the suffix chain either contains a dot or is the last
segment. -/
theorem stripChain_cases (s : String) :
    ∀ u ∈ stripChain s, containsDot u = true ∨ u = lastSeg s := by
  rw [stripChain_step, lastSeg_step]
  by_cases hdot : containsDot s = true
  · simp only [hdot, if_true]
    intro u hu
    rcases List.mem_cons.1 hu with rfl | hu2
    · exact Or.inl hdot
    · exact stripChain_cases (dropFirstSegment s) u hu2
  · simp only [Bool.not_eq_true] at hdot
    simp [hdot]
termination_by s.data.length
decreasing_by
  exact dropFirstSegment_length_lt s hdot

/-- The last segment belongs to the suffix chain. -/
theorem lastSeg_mem (s : String) : lastSeg s ∈ stripChain s := by
  rw [stripChain_step, lastSeg_step]
  by_cases hdot : containsDot s = true
  · simp only [hdot, if_true]
    exact List.mem_cons_of_mem _ (lastSeg_mem (dropFirstSegment s))
  · simp only [Bool.not_eq_true] at hdot
    simp [hdot]
termination_by s.data.length
decreasing_by
  exact dropFirstSegment_length_lt s hdot

theorem Suite.tests_setTests (s : Suite) (ts : List Test) : (s.setTests ts).tests = ts := by
  cases s; rfl

theorem Suite.suites_setTests (s : Suite) (ts : List Test) :
    (s.setTests ts).suites = s.suites := by
  cases s; rfl

theorem Suite.name_setTests (s : Suite) (ts : List Test) : (s.setTests ts).name = s.name := by
  cases s; rfl

theorem Suite.longname_setTests (s : Suite) (ts : List Test) :
    (s.setTests ts).longname = s.longname := by
  cases s; rfl

/-- A tag matcher configured to select the "critical" tag, used as a concrete
`TagPatterns` collaborator in witnesses. -/
def tagCritical : TagPatterns := ⟨fun tags => tags.contains "critical", true⟩

def fC1bad : Filter := ⟨⟨some ["Root"]⟩, ⟨none⟩, TagPatterns.unset, TagPatterns.unset⟩

def treeC1bad : Suite :=
  .mk "Root" "Root"
    [.mk "A" "Root.A" [.mk "B" "Root.A.B" [] []] [⟨"t1", "Root.A.t1", []⟩]] []

/-- C1 is false as stated: with the configured Filter `fC1bad`
(`include_suites=["Root"]` and nothing else), the complete visit of
`treeC1bad` leaves the tree unchanged, and its grandchild suite `B` survives
below the root with `test_count = 0`.  The matched root spawns a derived
Filter with all four criteria unset, whose visit stops immediately, so only
the root's direct children are ever pruned. -/
theorem C1_counterexample :
    fC1bad.nonzero = true ∧
      filterVisit fC1bad treeC1bad = treeC1bad ∧
      goodBelow treeC1bad = false :=
  ⟨rfl, rfl, rfl⟩

/-- C1 (amended): after a complete visit with any Filter having at least one
test-level criterion (include_tests, include_tags or exclude_tags)
configured, every suite remaining in the resulting tree other than the root
has nonzero `test_count`; when `include_suites` is the only configured
criterion this can fail below a matched suite. -/
theorem C1_pruning_invariant (f : Filter) (s : Suite)
    (h : f.testLevelConfigured = true) :
    goodBelow (filterVisit f s) = true :=
  goodBelow_filterVisit s f h

def fC1w : Filter := ⟨⟨some ["Root"]⟩, ⟨none⟩, tagCritical, TagPatterns.unset⟩

def treeC1w : Suite :=
  .mk "Root" "Root"
    [.mk "A" "Root.A" []
      [⟨"t1", "Root.A.t1", ["critical"]⟩, ⟨"t2", "Root.A.t2", []⟩],
     .mk "B" "Root.B" [] [⟨"t3", "Root.B.t3", []⟩]] []

theorem C1_pruning_invariant_witness :
    fC1w.testLevelConfigured = true ∧ goodBelow (filterVisit fC1w treeC1w) = true :=
  ⟨by decide, C1_pruning_invariant fC1w treeC1w (by decide)⟩

/-- C2: for a configured Filter whose `include_suites` is unset, `start_suite`
narrows the suite's test list to exactly the original tests satisfying the
conjunction of the configured test-level predicates (test-name inclusion, tag
inclusion, tag exclusion), in their original relative order; an unconfigured
axis imposes nothing. -/
theorem C2_narrowing (f : Filter) (s : Suite) (hconf : f.nonzero = true)
    (hsn : f.include_suites.nonzero = false) :
    ((f.start_suite s).1).tests = s.tests.filter f.testPred := by
  simp [Filter.start_suite, hconf, hsn, Suite.tests_setTests, narrowTests_eq_filter]

def fC2 : Filter := ⟨⟨none⟩, ⟨some ["Login*"]⟩, TagPatterns.unset, TagPatterns.unset⟩

def sC2 : Suite :=
  .mk "S" "S" []
    [⟨"Login Valid", "S.Login Valid", []⟩,
     ⟨"Login Invalid", "S.Login Invalid", []⟩,
     ⟨"Logout", "S.Logout", []⟩]

theorem C2_narrowing_witness :
    fC2.nonzero = true ∧ fC2.include_suites.nonzero = false ∧
      ((fC2.start_suite sC2).1).tests = sC2.tests.filter fC2.testPred :=
  ⟨by decide, by decide, C2_narrowing fC2 sC2 (by decide) (by decide)⟩

/-- C3: suite-name matching is segment-suffix-exact.  For any suite whose
longname ends (segment-wise) in its bare name — the data-model invariant
`longname = parent.longname + "." + name` — the source matcher succeeds
exactly when the bare name matches some pattern or some member of the chain
obtained by repeatedly stripping the leading dotted segment from the longname
matches some pattern; and concretely, pattern "Top.Smoke" matches the suite
with longname "Top.Smoke", while pattern "Smoke" does not match the suite
with name "Sub" and longname "Top.Smoke.Sub" (no interior-substring match). -/
theorem C3_suite_name_matching :
    (∀ (nf : NameFilter) (s : Suite), lastSeg s.longname = s.name →
      (suiteNameMatch nf s = true ↔ specSuiteMatch nf s.name s.longname)) ∧
      suiteNameMatch (NameFilter.ofRaw (.listVal ["Top.Smoke"]))
        (Suite.mk "Smoke" "Top.Smoke" [] []) = true ∧
      suiteNameMatch (NameFilter.ofRaw (.listVal ["Smoke"]))
        (Suite.mk "Sub" "Top.Smoke.Sub" [] []) = false := by
  refine ⟨?_, by decide, by decide⟩
  intro nf s hinv
  unfold suiteNameMatch specSuiteMatch
  constructor
  · intro h
    rw [Bool.or_eq_true] at h
    rcases h with h | h
    · exact Or.inl h
    · obtain ⟨u, hu, _, hum⟩ := (matchLongnameEnd_iff nf s.longname).1 h
      exact Or.inr ⟨u, hu, hum⟩
  · intro h
    rw [Bool.or_eq_true]
    rcases h with h | ⟨u, hu, hum⟩
    · exact Or.inl h
    · rcases stripChain_cases s.longname u hu with hud | hlast
      · exact Or.inr ((matchLongnameEnd_iff nf s.longname).2 ⟨u, hu, hud, hum⟩)
      · subst hlast
        rw [hinv] at hum
        exact Or.inl hum

def nfC3w : NameFilter := NameFilter.ofRaw (.listVal ["Top.Smoke"])

def sC3w : Suite := Suite.mk "Smoke" "Top.Smoke" [] []

theorem C3_suite_name_matching_witness :
    suiteNameMatch nfC3w sC3w = true ↔ specSuiteMatch nfC3w sC3w.name sC3w.longname :=
  C3_suite_name_matching.1 nfC3w sC3w (by decide)

/-- C4: when a configured `include_suites` filter matches a suite,
`start_suite` runs the complete visit of a derived Filter on that suite and
signals stop; the derived Filter's `include_suites` is cleared to the empty
pattern list (hence unconfigured, so suite-name filtering is never consulted
again inside the subtree — its visit coincides with the suite-name-free
visit), while the other three criteria are carried over unchanged. -/
theorem C4_derived_filter (f : Filter) (s : Suite)
    (hsn : f.include_suites.nonzero = true)
    (hm : suiteNameMatch f.include_suites s = true) :
    f.start_suite s = (filterVisit f.derived s, false) ∧
      f.derived.include_suites = NameFilter.ofRaw (.listVal []) ∧
      f.derived.include_tests = f.include_tests ∧
      f.derived.include_tags = f.include_tags ∧
      f.derived.exclude_tags = f.exclude_tags ∧
      f.derived.include_suites.nonzero = false ∧
      filterVisit f.derived s = visitNoSN f.derived s := by
  have hz : f.nonzero = true := by
    simp [Filter.nonzero, hsn]
  refine ⟨?_, rfl, rfl, rfl, rfl, rfl,
    filterVisit_noSN (show f.derived.include_suites.nonzero = false from rfl) s⟩
  simp [Filter.start_suite, hz, hsn, hm]

def fC4 : Filter := ⟨⟨some ["R"]⟩, ⟨some ["Login*"]⟩, TagPatterns.unset, TagPatterns.unset⟩

def sC4 : Suite :=
  .mk "R" "R" [] [⟨"Login", "R.Login", []⟩, ⟨"Other", "R.Other", []⟩]

theorem C4_derived_filter_witness :
    fC4.include_suites.nonzero = true ∧
      suiteNameMatch fC4.include_suites sC4 = true ∧
      fC4.start_suite sC4 = (filterVisit fC4.derived sC4, false) :=
  ⟨by decide, by decide, (C4_derived_filter fC4 sC4 (by decide) (by decide)).1⟩

/-- C5: when a configured `include_suites` filter does not match a suite,
`start_suite` unconditionally empties that suite's own test list and signals
continue, so the driver still descends into the child suites, each visited
independently with the same Filter; the full visit is then the pruning of the
suite with emptied tests and recursively visited children. -/
theorem C5_nonmatching_suite (f : Filter) (s : Suite)
    (hsn : f.include_suites.nonzero = true)
    (hm : suiteNameMatch f.include_suites s = false) :
    f.start_suite s = (s.setTests [], true) ∧
      filterVisit f s =
        Filter.end_suite ((s.setTests []).setSuites (filterVisitList f s.suites)) := by
  have hz : f.nonzero = true := by
    simp [Filter.nonzero, hsn]
  constructor
  · simp [Filter.start_suite, hz, hsn, hm]
  · match s with
    | .mk n l ss ts =>
      simp [filterVisit, hz, hsn, hm, Suite.setTests, Suite.setSuites, Suite.suites]

def fC5 : Filter := ⟨⟨some ["Other"]⟩, ⟨none⟩, TagPatterns.unset, TagPatterns.unset⟩

def sC5 : Suite :=
  .mk "R" "R" [.mk "A" "R.A" [] [⟨"u", "R.A.u", []⟩]] [⟨"t", "R.t", []⟩]

theorem C5_nonmatching_suite_witness :
    fC5.include_suites.nonzero = true ∧
      suiteNameMatch fC5.include_suites sC5 = false ∧
      fC5.start_suite sC5 = (sC5.setTests [], true) :=
  ⟨by decide, by decide, (C5_nonmatching_suite fC5 sC5 (by decide) (by decide)).1⟩

/-- C6: `TagSetter.start_test` applies `add` then `remove` to the test's tag
set; with `add=["smoke"]` and `remove=[]` a test with empty tags receives
exactly the tag set `["smoke"]`, a second application leaves the tags
unchanged (add inserts only if absent, preserving uniqueness and insertion
order), and `start_test` always returns the stop signal `false`. -/
theorem C6_tag_setter :
    (∀ nm ln, TagSetter.start_test ⟨some ["smoke"], some []⟩ ⟨nm, ln, []⟩ =
      (⟨nm, ln, ["smoke"]⟩, false)) ∧
      (∀ nm ln, TagSetter.start_test ⟨some ["smoke"], some []⟩ ⟨nm, ln, ["smoke"]⟩ =
        (⟨nm, ln, ["smoke"]⟩, false)) ∧
      (∀ (c : TagSetter) (t : Test), (c.start_test t).2 = false) :=
  ⟨fun _ _ => rfl, fun _ _ => rfl, fun _ _ => rfl⟩

def fC7 : Filter := ⟨⟨none⟩, ⟨none⟩, TagPatterns.unset, TagPatterns.unset⟩

def treeC7 : Suite := .mk "Root" "Root" [.mk "A" "Root.A" [] []] []

/-- C7 is false as stated: the unconfigured Filter `fC7` does change the tree.
Its `start_suite` signals stop without touching anything, but the driver still
fires `end_suite` on the root, which prunes the root's zero-test direct child
`A`. -/
theorem C7_counterexample :
    fC7.nonzero = false ∧
      filterVisit fC7 treeC7 = Suite.mk "Root" "Root" [] [] ∧
      treeC7.suites ≠ [] :=
  ⟨rfl, rfl, by simp [treeC7, Suite.suites]⟩

/-- C7 (amended): a Filter is empty iff all four criteria are unset, and on an
empty Filter `start_suite` immediately returns the stop signal without
modifying the suite, so the walk never descends; the driver's unconditional
`end_suite` call still prunes the root's zero-test direct children, and
nothing else changes. -/
theorem C7_empty_filter :
    (∀ f : Filter, f.nonzero = false ↔
      (f.include_suites.nonzero = false ∧ f.include_tests.nonzero = false ∧
        f.include_tags.nonzero = false ∧ f.exclude_tags.nonzero = false)) ∧
      (∀ (f : Filter) (s : Suite), f.nonzero = false →
        f.start_suite s = (s, false) ∧ filterVisit f s = Filter.end_suite s) := by
  constructor
  · intro f
    simp [Filter.nonzero, and_assoc]
  · intro f s h
    constructor
    · simp [Filter.start_suite, h]
    · match s with
      | .mk n l ss ts => simp [filterVisit, h]

def sC7w : Suite := .mk "R" "R" [.mk "A" "R.A" [] []] [⟨"t", "R.t", []⟩]

theorem C7_empty_filter_witness :
    fC7.nonzero = false ∧
      (fC7.start_suite sC7w = (sC7w, false) ∧ filterVisit fC7 sC7w = Filter.end_suite sC7w) :=
  ⟨by decide, C7_empty_filter.2 fC7 sC7w (by decide)⟩

/-- C8: each criteria setter normalizes a raw pattern value into a matcher
exactly once and re-uses an already-normalized matcher of the expected type
unchanged, so re-assigning a setter's own output (as the derived Filter of
`_filter_by_suite_name` does) yields the identical matcher object. -/
theorem C8_setter_idempotent :
    (∀ x : NameArg,
      include_suites_setter (.matcher (include_suites_setter x)) = include_suites_setter x) ∧
      (∀ x : NameArg,
        include_tests_setter (.matcher (include_tests_setter x)) = include_tests_setter x) ∧
      (∀ (parse : Option (List String) → TagPatterns) (x : TagsArg),
        include_tags_setter parse (.matcher (include_tags_setter parse x)) =
          include_tags_setter parse x) ∧
      (∀ (parse : Option (List String) → TagPatterns) (x : TagsArg),
        exclude_tags_setter parse (.matcher (exclude_tags_setter parse x)) =
          exclude_tags_setter parse x) ∧
      (∀ l, include_suites_setter (.raw (.listVal l)) = ⟨some l⟩) :=
  ⟨fun _ => rfl, fun _ => rfl, fun _ _ => rfl, fun _ _ => rfl, fun _ => rfl⟩

/-- C9: when `include_suites` is unconfigured, `start_suite` modifies only the
suite's own test list — name, longname and the child-suite list (the child
suites themselves included) are untouched, and the surviving tests are a
sublist of the original tests (so each surviving test is one of the original
test objects, fields unchanged); child-suite removal happens only in
`end_suite`, which touches nothing but the child-suite list. -/
theorem C9_start_suite_frame (f : Filter) (s : Suite)
    (hsn : f.include_suites.nonzero = false) :
    ((f.start_suite s).1.name = s.name ∧
      (f.start_suite s).1.longname = s.longname ∧
      (f.start_suite s).1.suites = s.suites ∧
      List.Sublist ((f.start_suite s).1.tests) s.tests) ∧
      (∀ u : Suite, (Filter.end_suite u).name = u.name ∧
        (Filter.end_suite u).longname = u.longname ∧
        (Filter.end_suite u).tests = u.tests ∧
        (Filter.end_suite u).suites = u.suites.filter (fun c => c.test_count != 0)) := by
  constructor
  · by_cases hz : f.nonzero = false
    · simp [Filter.start_suite, hz]
    · simp only [Bool.not_eq_false] at hz
      refine ⟨?_, ?_, ?_, ?_⟩ <;>
        simp [Filter.start_suite, hz, hsn, Suite.name_setTests, Suite.longname_setTests,
          Suite.suites_setTests, Suite.tests_setTests, narrowTests_eq_filter,
          List.filter_sublist]
  · intro u
    match u with
    | .mk n l ss ts => exact ⟨rfl, rfl, rfl, rfl⟩

def fC9 : Filter := ⟨⟨none⟩, ⟨some ["a*"]⟩, TagPatterns.unset, TagPatterns.unset⟩

def sC9 : Suite :=
  .mk "R" "R" [.mk "A" "R.A" [] []] [⟨"abc", "R.abc", []⟩, ⟨"xyz", "R.xyz", []⟩]

theorem C9_start_suite_frame_witness :
    fC9.include_suites.nonzero = false ∧
      (fC9.start_suite sC9).1.suites = sC9.suites ∧
      List.Sublist ((fC9.start_suite sC9).1.tests) sC9.tests :=
  ⟨by decide, ((C9_start_suite_frame fC9 sC9 (by decide)).1).2.2.1,
    ((C9_start_suite_frame fC9 sC9 (by decide)).1).2.2.2⟩

/-- C10: a name filter built from a bare pattern string behaves exactly as one
built from the one-element list of that string (the constructor wraps the
string), and a name filter built from an empty pattern list is falsy, i.e.
treated as unconfigured. -/
theorem C10_string_pattern_equiv :
    (∀ p, NameFilter.ofRaw (.strVal p) = NameFilter.ofRaw (.listVal [p])) ∧
      (∀ p s, suiteNameMatch (NameFilter.ofRaw (.strVal p)) s =
        suiteNameMatch (NameFilter.ofRaw (.listVal [p])) s) ∧
      (∀ p t, testNameMatch (NameFilter.ofRaw (.strVal p)) t =
        testNameMatch (NameFilter.ofRaw (.listVal [p])) t) ∧
      (NameFilter.ofRaw (.listVal [])).nonzero = false :=
  ⟨fun _ => rfl, fun _ _ => rfl, fun _ _ => rfl, rfl⟩

end Robot
